import Mathlib

/-!
Verification of the generic copy dispatch layer
(`src/thrust/detail/backend/generic/copy.inl`).

The file under `src/` defines two algorithms:

* `copy(tag, first, last, result)` — delegates to the `transform`
  primitive with the identity functor over the input's value type
  (lines 41–48);
* `copy_n(tag, first, n, result)` — computes the minimum common
  execution space of the two iterators, selects the per-space wrapper
  of the identity functor, fuses `(first, result)` into a zip iterator,
  runs `for_each_n` on it for `n` steps and returns the second
  component of the final fused position (lines 54–75).

The primitives it delegates to (`transform`, `for_each_n`, the zip
iterator, the space lattice `minimum_space` and the functor selector
`unary_transform_functor`) live in headers that are not part of the
sources; they are modelled here from the specification's contracts for
them.  Iterators are modelled as positions (`Nat`) into element stores
(`Nat → α`); the source store is read-only and the destination store is
threaded explicitly, so the disjoint source/destination situation the
specification describes is represented directly.
-/

namespace Thrust

/-- Modelled from the spec: the known execution-space tags — a
sequential space, a parallel space, and the unconstrained "any" tag
(spec §3 "Execution Space Tag"; the space-tag headers are not among the
sources). -/
inductive Space where
  | seq : Space
  | par : Space
  | any_space : Space
  deriving DecidableEq, Repr

/-- Modelled from the spec: the space-lattice operation
`minimum_space(A, B)` — the most specific space compatible with both
arguments; `any` is compatible with everything, equal spaces resolve to
themselves, and the sequential/parallel pair shares no compatible space,
which the spec reports as a resolution failure (`none` here).
(`thrust/iterator/detail/minimum_space.h` is not among the sources.) -/
def minimum_space : Space → Space → Option Space
  | Space.any_space, s => some s
  | s, Space.any_space => some s
  | Space.seq, Space.seq => some Space.seq
  | Space.par, Space.par => some Space.par
  | Space.seq, Space.par => none
  | Space.par, Space.seq => none

/-- The dispatch tag of the generic backend: an empty marker type, as in
the source (`copy(tag, ...)`). -/
inductive tag where
  | mk : tag
  deriving DecidableEq

variable {α : Type}

/-- Modelled from the spec: the loop carried out by the `transform`
primitive — for `k` remaining steps, write `f` of the source element at
`first` into the destination slot `result` and advance both positions.
Returns the final destination store and the final output position. -/
def transform_loop (src : Nat → α) (f : α → α) :
    Nat → Nat → (Nat → α) → Nat → ((Nat → α) × Nat)
  | 0, _, dst, result => (dst, result)
  | k + 1, first, dst, result =>
    transform_loop src f k (first + 1)
      (Function.update dst result (f (src first))) (result + 1)

/-- Modelled from the spec: the consumed `transform` primitive —
"applies `unary_op` elementwise over `[first,last)`, writing to
`result`", returning the output iterator one past the last element
written (spec §6). -/
def transform (src : Nat → α) (first last : Nat) (dst : Nat → α)
    (result : Nat) (f : α → α) : ((Nat → α) × Nat) :=
  transform_loop src f (last - first) first dst result

/-- Modelled from the spec: the per-space wrapper produced by the
Transform Functor Selector for a unary functor `f` — applied to a fused
(input position, output position) pair it "writes `input_value` into
the output slot unchanged", i.e. it stores `f` of the input element
into the output slot (spec §4.4 step 4, §4.6;
`thrust/detail/internal_functional.h` is not among the sources). -/
def unary_transform_functor_apply (f : α → α) (src dst : Nat → α)
    (p : Nat × Nat) : Nat → α :=
  Function.update dst p.2 (f (src p.1))

/-- Modelled from the spec: the consumed `for_each_n` primitive driven
over a fused (zip) iterator — "applies `unary_functor` to each of the
next `n` positions of `iterator`, advancing it; returns the end
position reached" (spec §6).  Advancing the fused iterator advances
both constituent positions in lockstep (spec §4.5).  Returns the final
fused position together with the final destination store. -/
def for_each_n (src : Nat → α) (f : α → α) :
    Nat × Nat → Nat → (Nat → α) → ((Nat × Nat) × (Nat → α))
  | p, 0, dst => (p, dst)
  | p, n + 1, dst =>
    for_each_n src f (p.1 + 1, p.2 + 1) n
      (unary_transform_functor_apply f src dst p)

/-- `copy` from `src/thrust/detail/backend/generic/copy.inl` lines
41–48: delegates to `transform` with `thrust::identity` over the
input's value type.  Returns the final destination store and the
returned output iterator. -/
def copy (_t : tag) (src : Nat → α) (first last : Nat) (dst : Nat → α)
    (result : Nat) : ((Nat → α) × Nat) :=
  transform src first last dst result id

/-- `copy_n` from `src/thrust/detail/backend/generic/copy.inl` lines
54–75: fuses `(first, result)` into a zip iterator, runs `for_each_n`
on it for `n` steps applying the selected wrapper of the identity
functor, and returns `get<1>` of the final fused position, paired here
with the final destination store. -/
def copy_n (_t : tag) (src : Nat → α) (first n : Nat) (dst : Nat → α)
    (result : Nat) : ((Nat → α) × Nat) :=
  let zipped : Nat × Nat := (first, result)
  let r := for_each_n src id zipped n dst
  (r.2, r.1.2)

/-- The C++ type expressions appearing in `copy_n`'s typedef chain: a
space tag type, or the class template specialization
`minimum_space<A,B>` itself (the metafunction instance, with no
`::type` member access performed). -/
inductive CppTy where
  | space_tag : Space → CppTy
  | minimum_space_cls : CppTy → CppTy → CppTy
  deriving DecidableEq, Repr

/-- Line 62 of the source exactly as written —
`typedef typename thrust::detail::minimum_space<space1,space2> space;`
— names the metafunction class itself; no `::type` member access
appears, so the typedef is the unevaluated specialization
`minimum_space<space1,space2>`, and this is the type the code then
passes as the space argument of `unary_transform_functor` on
line 67. -/
def space_typedef (space1 space2 : CppTy) : CppTy :=
  CppTy.minimum_space_cls space1 space2

/-- Modelled from the spec: the evaluated metafunction — the computed
minimum space `minimum_space<A,B>::type` for space tags `A` and `B`
(spec §4.4 step 1). -/
def minimum_space_type (a b : Space) : Option CppTy :=
  (minimum_space a b).map CppTy.space_tag

/-- Modelled from the spec (§5): a physical execution of `copy_n`'s `n`
fused element operations in an arbitrary backend-chosen order — `ord`
lists the logical offsets in the order the backend runs them; running
offset `k` applies the wrapper at fused position
`(first + k, result + k)`, writing `f` of the input element at
`first + k` into the output slot `result + k`. -/
def exec_in_order (src : Nat → α) (f : α → α) (first result : Nat) :
    (Nat → α) → List Nat → (Nat → α)
  | dst, [] => dst
  | dst, k :: ord =>
    exec_in_order src f first result
      (unary_transform_functor_apply f src dst (first + k, result + k)) ord

/- ### Closed forms for the modelled primitives -/

lemma transform_loop_snd (src : Nat → α) (f : α → α) :
    ∀ (k first : Nat) (dst : Nat → α) (result : Nat),
      (transform_loop src f k first dst result).2 = result + k := by
  intro k
  induction k with
  | zero =>
    intro first dst result
    rfl
  | succ k ih =>
    intro first dst result
    simp only [transform_loop]
    rw [ih]
    omega

lemma transform_loop_fst (src : Nat → α) (f : α → α) :
    ∀ (k first : Nat) (dst : Nat → α) (result m : Nat),
      (transform_loop src f k first dst result).1 m =
        if result ≤ m ∧ m < result + k then f (src (first + (m - result)))
        else dst m := by
  intro k
  induction k with
  | zero =>
    intro first dst result m
    simp only [transform_loop]
    rw [if_neg (by omega)]
  | succ k ih =>
    intro first dst result m
    simp only [transform_loop]
    rw [ih]
    by_cases h1 : result + 1 ≤ m ∧ m < result + 1 + k
    · rw [if_pos h1, if_pos (by omega)]
      have harg : first + 1 + (m - (result + 1)) = first + (m - result) := by
        omega
      rw [harg]
    · rw [if_neg h1, Function.update_apply]
      by_cases h2 : m = result
      · subst h2
        rw [if_pos rfl, if_pos (by omega)]
        have harg : m + (m - m) = m := by omega
        have harg2 : first + (m - m) = first := by omega
        rw [harg2]
      · rw [if_neg h2, if_neg (by omega)]

lemma for_each_n_pos (src : Nat → α) (f : α → α) :
    ∀ (n i j : Nat) (dst : Nat → α),
      (for_each_n src f (i, j) n dst).1 = (i + n, j + n) := by
  intro n
  induction n with
  | zero =>
    intro i j dst
    rfl
  | succ n ih =>
    intro i j dst
    simp only [for_each_n]
    rw [ih]
    have h1 : i + 1 + n = i + (n + 1) := by omega
    have h2 : j + 1 + n = j + (n + 1) := by omega
    rw [h1, h2]

lemma for_each_n_mem (src : Nat → α) (f : α → α) :
    ∀ (n i j : Nat) (dst : Nat → α) (m : Nat),
      (for_each_n src f (i, j) n dst).2 m =
        if j ≤ m ∧ m < j + n then f (src (i + (m - j))) else dst m := by
  intro n
  induction n with
  | zero =>
    intro i j dst m
    simp only [for_each_n]
    rw [if_neg (by omega)]
  | succ n ih =>
    intro i j dst m
    simp only [for_each_n, unary_transform_functor_apply]
    rw [ih]
    by_cases h1 : j + 1 ≤ m ∧ m < j + 1 + n
    · rw [if_pos h1, if_pos (by omega)]
      have harg : i + 1 + (m - (j + 1)) = i + (m - j) := by omega
      rw [harg]
    · rw [if_neg h1, Function.update_apply]
      by_cases h2 : m = j
      · subst h2
        rw [if_pos rfl, if_pos (by omega)]
        have harg : i + (m - m) = i := by omega
        rw [harg]
      · rw [if_neg h2, if_neg (by omega)]

lemma exec_in_order_perm (src : Nat → α) (f : α → α) (first result : Nat)
    {l1 l2 : List Nat} (h : List.Perm l1 l2) :
    ∀ dst : Nat → α,
      exec_in_order src f first result dst l1 =
        exec_in_order src f first result dst l2 := by
  induction h with
  | nil =>
    intro dst
    rfl
  | cons x _ ih =>
    intro dst
    simp only [exec_in_order]
    exact ih _
  | swap x y l =>
    intro dst
    simp only [exec_in_order, unary_transform_functor_apply]
    by_cases hxy : x = y
    · subst hxy
      rfl
    · rw [Function.update_comm (by omega)]
  | trans _ _ ih1 ih2 =>
    intro dst
    rw [ih1, ih2]

lemma exec_in_order_append (src : Nat → α) (f : α → α)
    (first result : Nat) :
    ∀ (l1 l2 : List Nat) (dst : Nat → α),
      exec_in_order src f first result dst (l1 ++ l2) =
        exec_in_order src f first result
          (exec_in_order src f first result dst l1) l2 := by
  intro l1
  induction l1 with
  | nil =>
    intro l2 dst
    rfl
  | cons k l ih =>
    intro l2 dst
    simp only [List.cons_append, exec_in_order]
    exact ih _ _

lemma exec_in_order_range (src : Nat → α) (f : α → α)
    (first result : Nat) :
    ∀ (n : Nat) (dst : Nat → α) (m : Nat),
      exec_in_order src f first result dst (List.range n) m =
        if result ≤ m ∧ m < result + n then f (src (first + (m - result)))
        else dst m := by
  intro n
  induction n with
  | zero =>
    intro dst m
    simp only [List.range_zero, exec_in_order]
    rw [if_neg (by omega)]
  | succ n ih =>
    intro dst m
    rw [List.range_succ, exec_in_order_append]
    simp only [exec_in_order, unary_transform_functor_apply]
    rw [Function.update_apply]
    by_cases h1 : m = result + n
    · subst h1
      rw [if_pos rfl, if_pos (by omega)]
      have harg : first + (result + n - result) = first + n := by omega
      rw [harg]
    · rw [if_neg h1, ih]
      by_cases h2 : result ≤ m ∧ m < result + n
      · rw [if_pos h2, if_pos (by omega)]
      · rw [if_neg h2, if_neg (by omega)]

lemma copy_fst (t : tag) (src : Nat → α) (first last : Nat)
    (dst : Nat → α) (result m : Nat) :
    (copy t src first last dst result).1 m =
      if result ≤ m ∧ m < result + (last - first)
      then src (first + (m - result)) else dst m := by
  simp only [copy, transform]
  rw [transform_loop_fst]
  rfl

lemma copy_snd (t : tag) (src : Nat → α) (first last : Nat)
    (dst : Nat → α) (result : Nat) :
    (copy t src first last dst result).2 = result + (last - first) := by
  simp only [copy, transform]
  rw [transform_loop_snd]

lemma copy_n_fst (t : tag) (src : Nat → α) (first n : Nat)
    (dst : Nat → α) (result m : Nat) :
    (copy_n t src first n dst result).1 m =
      if result ≤ m ∧ m < result + n then src (first + (m - result))
      else dst m := by
  simp only [copy_n]
  rw [for_each_n_mem]
  rfl

lemma copy_n_snd (t : tag) (src : Nat → α) (first n : Nat)
    (dst : Nat → α) (result : Nat) :
    (copy_n t src first n dst result).2 = result + n := by
  simp only [copy_n]
  rw [for_each_n_pos]

/- ### Claims -/

/-- C1: for every finite input sequence (the source elements at
positions `[first, last)`) and every valid non-overlapping destination,
`copy(tag, first, last, result)` writes `D[k] = S[k]` for every offset
`0 ≤ k < len(S)` and returns the output iterator advanced by
`len(S) = last - first`. -/
theorem copy_elementwise (t : tag) (src : Nat → α) (first last : Nat)
    (dst : Nat → α) (result : Nat) :
    (∀ k, k < last - first →
        (copy t src first last dst result).1 (result + k) =
          src (first + k)) ∧
    (copy t src first last dst result).2 = result + (last - first) := by
  constructor
  · intro k hk
    rw [copy_fst, if_pos (by omega)]
    have harg : first + (result + k - result) = first + k := by omega
    rw [harg]
  · exact copy_snd t src first last dst result

/-- C1 witness: concrete instance at a 3-element source, offset 1. -/
theorem copy_elementwise_witness :
    1 < 3 - 0 ∧
      (copy tag.mk (fun k : Nat => k * 10) 0 3 (fun _ => 0) 5).1 (5 + 1) =
        (fun k : Nat => k * 10) (0 + 1) :=
  ⟨by decide,
    (copy_elementwise tag.mk (fun k : Nat => k * 10) 0 3 (fun _ => 0) 5).1
      1 (by decide)⟩

/-- C2: for every source, every count `n` and every destination,
`copy_n(tag, first, n, result)` produces exactly the same observable
output — the final destination store and the returned iterator — as
`copy(tag, first, first + n, result)`. -/
theorem copy_n_eq_copy (t : tag) (src : Nat → α) (first n : Nat)
    (dst : Nat → α) (result : Nat) :
    copy_n t src first n dst result =
      copy t src first (first + n) dst result := by
  have hn : first + n - first = n := by omega
  refine Prod.ext ?_ ?_
  · funext m
    rw [copy_n_fst, copy_fst, hn]
  · rw [copy_n_snd, copy_snd, hn]

/-- C3: the source deviates from the spec's step (2).  On line 62 the
typedef `space` is the unevaluated metafunction class
`minimum_space<space1,space2>` (the `::type` member access is missing),
and that class — not the computed minimum space — is what line 67
passes as the space argument of `unary_transform_functor`.  Evaluated
at the concrete pair (seq, seq): the computed minimum space is the
`seq` tag, yet the type the code hands to the selector is a different
type. -/
theorem copy_n_selector_key_mismatch :
    minimum_space_type Space.seq Space.seq =
        some (CppTy.space_tag Space.seq) ∧
      space_typedef (CppTy.space_tag Space.seq) (CppTy.space_tag Space.seq) ≠
        CppTy.space_tag Space.seq := by
  decide

/-- C4: for every non-negative `n` and valid destination, the iterator
returned by `copy_n(tag, first, n, result)` is `result` advanced by
exactly `n` positions (one past the last slot written). -/
theorem copy_n_returns_advanced (t : tag) (src : Nat → α) (first n : Nat)
    (dst : Nat → α) (result : Nat) :
    (copy_n t src first n dst result).2 = result + n :=
  copy_n_snd t src first n dst result

/-- C5: `copy(tag, first, last, result)` only writes inside the
destination range `[result, result + (last - first))` — every
destination slot outside it keeps its previous value — and it reads the
source only inside `[first, last)`: two sources agreeing there produce
identical outcomes.  The source store itself is read-only in this layer
and is never modified. -/
theorem copy_frame (t : tag) (src srcb : Nat → α) (first last : Nat)
    (dst : Nat → α) (result : Nat) :
    (∀ m, m < result ∨ result + (last - first) ≤ m →
        (copy t src first last dst result).1 m = dst m) ∧
    ((∀ k, first ≤ k → k < last → srcb k = src k) →
        copy t srcb first last dst result =
          copy t src first last dst result) := by
  constructor
  · intro m hm
    rw [copy_fst, if_neg (by omega)]
  · intro hsrc
    refine Prod.ext ?_ ?_
    · funext m
      rw [copy_fst, copy_fst]
      by_cases h : result ≤ m ∧ m < result + (last - first)
      · rw [if_pos h, if_pos h,
          hsrc (first + (m - result)) (by omega) (by omega)]
      · rw [if_neg h, if_neg h]
    · rw [copy_snd, copy_snd]

/-- C5 witness: concrete instance — a slot below and a slot above the
written range keep their values, and agreement on `[first, last)`
suffices. -/
theorem copy_frame_witness :
    ((1 : Nat) < 2 ∨ 2 + (3 - 0) ≤ 1) ∧
      (copy tag.mk (fun k : Nat => k + 7) 0 3 (fun _ => 99) 2).1 1 = 99 ∧
      ((∀ k, 0 ≤ k → k < 3 →
          (fun j : Nat => if j < 3 then j + 7 else 0) k =
            (fun j : Nat => j + 7) k) →
        copy tag.mk (fun j : Nat => if j < 3 then j + 7 else 0) 0 3
            (fun _ => 99) 2 =
          copy tag.mk (fun j : Nat => j + 7) 0 3 (fun _ => 99) 2) :=
  ⟨Or.inl (by decide),
    (copy_frame tag.mk (fun k : Nat => k + 7)
        (fun j : Nat => if j < 3 then j + 7 else 0) 0 3 (fun _ => 99) 2).1
      1 (Or.inl (by decide)),
    fun h =>
      (copy_frame tag.mk (fun k : Nat => k + 7)
          (fun j : Nat => if j < 3 then j + 7 else 0) 0 3
          (fun _ => 99) 2).2 h⟩

/-- C6: the zero-length call `copy(tag, first, first, result)` returns
`result` itself and touches no destination element: the destination
store is returned unchanged. -/
theorem copy_zero_length (t : tag) (src : Nat → α) (first : Nat)
    (dst : Nat → α) (result : Nat) :
    copy t src first first dst result = (dst, result) := by
  simp only [copy, transform, Nat.sub_self, transform_loop]

/-- C7: the space lattice operation is idempotent —
`minimum_space(A, A) = A` for every known execution-space tag `A`, so
copying within a single space resolves to that same space. -/
theorem minimum_space_idempotent :
    ∀ a : Space, minimum_space a a = some a := by
  intro a
  cases a <;> rfl

/-- C8: the space lattice operation is symmetric —
`minimum_space(A, B) = minimum_space(B, A)` for every pair of known
tags (compatible pairs resolve to the same space on both sides, and
incompatible pairs fail on both sides alike). -/
theorem minimum_space_symmetric :
    ∀ a b : Space, minimum_space a b = minimum_space b a := by
  intro a b
  cases a <;> cases b <;> rfl

/-- C9: `copy_n` is deterministic — any two physical executions of its
`n` fused element operations, in whatever orders the backend chooses
(any two permutations of the logical offsets `0, …, n-1`), end in the
same destination store, namely the one `copy_n` defines, and the
returned iterator is likewise determined (`result + n`); the resolved
space is a function of the two tags, so it too is identical across
runs. -/
theorem copy_n_deterministic (t : tag) (src : Nat → α) (first n : Nat)
    (dst : Nat → α) (result : Nat) (ord1 ord2 : List Nat)
    (h1 : List.Perm ord1 (List.range n))
    (h2 : List.Perm ord2 (List.range n)) :
    exec_in_order src id first result dst ord1 =
        (copy_n t src first n dst result).1 ∧
      exec_in_order src id first result dst ord2 =
        (copy_n t src first n dst result).1 ∧
      (copy_n t src first n dst result).2 = result + n := by
  refine ⟨?_, ?_, copy_n_snd t src first n dst result⟩
  · rw [exec_in_order_perm src id first result h1]
    funext m
    rw [exec_in_order_range, copy_n_fst]
    simp only [id_eq]
  · rw [exec_in_order_perm src id first result h2]
    funext m
    rw [exec_in_order_range, copy_n_fst]
    simp only [id_eq]

/-- C9 witness: two concrete opposite execution orders of a two-element
`copy_n` agree with the algorithm's result. -/
theorem copy_n_deterministic_witness :
    List.Perm [1, 0] (List.range 2) ∧ List.Perm [0, 1] (List.range 2) ∧
      (exec_in_order (fun k : Nat => k + 5) id 0 10 (fun _ => 0) [1, 0] =
          (copy_n tag.mk (fun k : Nat => k + 5) 0 2 (fun _ => 0) 10).1 ∧
        exec_in_order (fun k : Nat => k + 5) id 0 10 (fun _ => 0) [0, 1] =
          (copy_n tag.mk (fun k : Nat => k + 5) 0 2 (fun _ => 0) 10).1 ∧
        (copy_n tag.mk (fun k : Nat => k + 5) 0 2 (fun _ => 0) 10).2 =
          10 + 2) :=
  ⟨by decide, by decide,
    copy_n_deterministic tag.mk (fun k : Nat => k + 5) 0 2 (fun _ => 0) 10
      [1, 0] [0, 1] (by decide) (by decide)⟩

/-- C10: the zero-count call `copy_n(tag, first, 0, result)` returns
`result` unchanged and writes no destination element. -/
theorem copy_n_zero (t : tag) (src : Nat → α) (first : Nat)
    (dst : Nat → α) (result : Nat) :
    copy_n t src first 0 dst result = (dst, result) :=
  rfl

end Thrust
